import Mathlib

/-!
Verification development for the markdown-to-slides converter.

Python strings are modelled as `List Char` (`Str`). Each definition is a
direct transcription of the corresponding function of the repository:
`tables.py` (table parsing), `text.py` (list-item detection), `slides.py`
(slide splitting and the per-slide body scanner) and `code.py` (the code
tokenizer). Regular expressions used by the source are transcribed as the
deterministic scanners they denote on the inputs the code feeds them.
-/

namespace Presenter

abbrev Str := List Char

/-- Characters stripped by Python `str.strip()` for ASCII text
(space, tab, newline, carriage return, vertical tab, form feed). -/
def isPyWs (c : Char) : Bool :=
  c == ' ' || c == '\t' || c == '\n' || c == '\r' || c == '\x0b' || c == '\x0c'

/-- Characters of the regex class `[ \t]`. -/
def isBlankChar (c : Char) : Bool := c == ' ' || c == '\t'

/-- Drop the longest suffix whose characters satisfy `p`. -/
def dropTrailing (p : Char → Bool) (s : Str) : Str := (s.reverse.dropWhile p).reverse

/-- Python `str.strip()` (ASCII whitespace). -/
def pyStrip (s : Str) : Str := dropTrailing isPyWs (s.dropWhile isPyWs)

/-- Strip only `[ \t]` from both ends (used to model the line-anchored
separator regex `^[ \t]*sep[ \t]*$`). -/
def stripBlank (s : Str) : Str := dropTrailing isBlankChar (s.dropWhile isBlankChar)

/-- Python `str.lower()` (ASCII). -/
def pyLower (s : Str) : Str := s.map Char.toLower

/-- Python `str.split(sep)` for a one-character separator, on any element type:
splitting on the elements satisfying `p`.  `splitBy p [] = [[]]`, matching
Python's `"".split(c) == [""]`. -/
def splitBy (p : α → Bool) : List α → List (List α)
  | [] => [[]]
  | a :: rest =>
    if p a then [] :: splitBy p rest
    else
      match splitBy p rest with
      | [] => [[a]]
      | h :: t => (a :: h) :: t

/-- Python `sep.join(pieces)`. -/
def pyJoin (sep : Str) : List Str → Str
  | [] => []
  | [s] => s
  | s :: rest => s ++ sep ++ pyJoin sep rest

/-- `True` on a line that the separator regex `^[ \t]*sep[ \t]*$` matches,
for a separator with no newline and no leading/trailing blank of its own
(the default `---` qualifies). -/
def isSeparatorLine (separator line : Str) : Bool := stripBlank line == separator

/-- `parse_markdown_slides` from `slides.py`: split the document on lines
holding only the separator (with optional surrounding blanks), strip each
piece, and drop the empty ones.  The `re.split` on the MULTILINE-anchored
pattern is modelled at line granularity: a Python split piece differs from
the newline-join of the corresponding run of non-separator lines only by
the newlines adjacent to the removed separator lines, which the subsequent
`strip()` removes. -/
def parse_markdown_slides (markdown_content : Str) (separator : Str := ("---").data) :
    List Str :=
  let lines := splitBy (fun c => c == '\n') markdown_content
  let chunks := splitBy (isSeparatorLine separator) lines
  (chunks.map (fun chunk => pyStrip (pyJoin ['\n'] chunk))).filter (fun s => !s.isEmpty)

/-! ## tables.py -/

/-- `is_table_row` from `tables.py`. -/
def is_table_row (line : Str) : Bool :=
  if line.isEmpty then false
  else if !line.contains '|' then false
  else
    let cells0 := (splitBy (fun c => c == '|') line).map pyStrip
    let cells1 := match cells0 with
      | [] :: rest => rest
      | cs => cs
    let cells := if cells1.getLast? == some [] then cells1.dropLast else cells1
    if cells.length < 2 then false
    else
      cells.any (fun c =>
        (c.any (fun ch => !isPyWs ch)) &&
        !(!c.isEmpty && c.all (fun ch => ch == ':' || ch == '-' || ch == ' ')))

/-- One cell of an alignment separator row: the regex `:?-{3,}:?`. -/
def isSepCell (p : Str) : Bool :=
  let q := match p with
    | ':' :: t => t
    | t => t
  let r := if q.getLast? == some ':' then q.dropLast else q
  decide (3 ≤ r.length) && r.all (fun c => c == '-')

/-- `is_table_separator` from `tables.py`. -/
def is_table_separator (line : Str) : Bool :=
  if line.isEmpty then false
  else
    let tmp0 := pyStrip line
    let tmp1 := match tmp0 with
      | '|' :: t => t
      | t => t
    let tmp := if tmp1.getLast? == some '|' then tmp1.dropLast else tmp1
    let parts := (splitBy (fun c => c == '|') tmp).map pyStrip
    if parts.length < 1 then false
    else parts.all isSepCell

/-- `parse_table_alignment` from `tables.py`. -/
def parse_table_alignment (separator : Str) : List Str :=
  let row0 := pyStrip separator
  let row1 := match row0 with
    | '|' :: t => t
    | t => t
  let row := if row1.getLast? == some '|' then row1.dropLast else row1
  let parts := (splitBy (fun c => c == '|') row).map pyStrip
  parts.map (fun part =>
    if part.head? == some ':' && part.getLast? == some ':' then ("center").data
    else if part.getLast? == some ':' then ("right").data
    else ("left").data)

/-- `parse_table_row` from `tables.py`. -/
def parse_table_row (line : Str) : List Str :=
  let row0 := pyStrip line
  let row1 := match row0 with
    | '|' :: t => t
    | t => t
  let row := if row1.getLast? == some '|' then row1.dropLast else row1
  (splitBy (fun c => c == '|') row).map pyStrip

/-- `TableParseError` from `tables.py`. -/
inductive TableParseError where
  | emptyLines
  | noSeparatorRow
deriving DecidableEq

/-- The parsed-table dictionary returned by `parse_table`. -/
structure Table where
  has_header : Bool
  headers : List Str
  rows : List (List Str)
  alignments : List Str
  raw : List Str
deriving DecidableEq

/-- The separator-row search of `parse_table`: the lines before the first
separator row, that row, and the lines after it (`separator_idx` becomes
the length of the first component). -/
def splitAtSeparator : List Str → Option (List Str × Str × List Str)
  | [] => none
  | l :: rest =>
    if is_table_separator (pyStrip l) then some ([], l, rest)
    else
      match splitAtSeparator rest with
      | none => none
      | some (pre, s, post) => some (l :: pre, s, post)

/-- The data-row loop of `parse_table`: blank lines are skipped, the first
non-table line breaks the loop; a short row is right-padded with `""` to the
current alignment count, a long row extends the alignments with `"left"`. -/
def collectDataRows : List Str → List Str → List (List Str) × List Str
  | [], alignments => ([], alignments)
  | after :: rest, alignments =>
    if (pyStrip after).isEmpty then collectDataRows rest alignments
    else if !is_table_row (pyStrip after) then ([], alignments)
    else
      let row_cells := parse_table_row after
      if row_cells.length < alignments.length then
        let padded := row_cells ++ List.replicate (alignments.length - row_cells.length) []
        let (rs, af) := collectDataRows rest alignments
        (padded :: rs, af)
      else if alignments.length < row_cells.length then
        let alignments2 :=
          alignments ++ List.replicate (row_cells.length - alignments.length) (("left").data)
        let (rs, af) := collectDataRows rest alignments2
        (row_cells :: rs, af)
      else
        let (rs, af) := collectDataRows rest alignments
        (row_cells :: rs, af)

/-- `parse_table` from `tables.py`. -/
def parse_table (table_lines : List Str) : Except TableParseError Table :=
  if table_lines.isEmpty then .error .emptyLines
  else
    match splitAtSeparator table_lines with
    | none => .error .noSeparatorRow
    | some (pre, sepLine, post) =>
      let has_header := !pre.isEmpty
      let headers := match pre.getLast? with
        | some hl => parse_table_row hl
        | none => []
      let alignments0 := parse_table_alignment sepLine
      let (data_rows, alignments1) := collectDataRows post alignments0
      let (headers2, alignments) :=
        if has_header && decide (headers.length < alignments1.length) then
          (headers ++ List.replicate (alignments1.length - headers.length) [], alignments1)
        else if has_header && decide (alignments1.length < headers.length) then
          (headers, alignments1 ++ List.replicate (headers.length - alignments1.length) (("left").data))
        else (headers, alignments1)
      .ok ⟨has_header, headers2, data_rows, alignments, table_lines⟩

/-! ## text.py -/

/-- The regex `^\d+\.\s+(.*)` used for ordered list items; returns the
captured group. -/
def orderedListMatch (s : Str) : Option Str :=
  let ds := s.takeWhile Char.isDigit
  if ds.isEmpty then none
  else
    match s.drop ds.length with
    | '.' :: rest =>
      let ws := rest.takeWhile isPyWs
      if ws.isEmpty then none else some (rest.drop ws.length)
    | _ => none

/-- `is_list_item` from `text.py`. -/
def is_list_item (text : Str) : Bool :=
  ("- ").data.isPrefixOf text || ("* ").data.isPrefixOf text ||
    (orderedListMatch text).isSome

/-! ## slides.py: parse_slide_content -/

/-- An entry of the `images` list. -/
structure ImageRef where
  alt : Str
  path : Str
deriving DecidableEq

/-- An entry of the `code_blocks` list. -/
structure CodeBlock where
  language : Str
  code : Str
deriving DecidableEq

/-- One entry of the ordered `body` list. -/
inductive BodyItem where
  | content (text : Str) (content_type : Str)
  | list (items : List Str)
  | table (table : Table)
deriving DecidableEq

/-- The mutable scan state of `parse_slide_content`'s line loop.
`current_code_block = none` models the empty dict `{}`; it is `some _`
exactly while a fence is open, since the dict is created at fence opening.
The redundant `code_block_language` variable of the source is folded into
`current_code_block.language`, its only use. -/
structure ScanState where
  title : Str
  body : List BodyItem
  images : List ImageRef
  code_blocks : List CodeBlock
  current_list : List Str
  in_list : Bool
  in_code_block : Bool
  current_code_block : Option CodeBlock
  current_paragraph : List Str
deriving DecidableEq

def initState : ScanState :=
  { title := [], body := [], images := [], code_blocks := [], current_list := []
    in_list := false, in_code_block := false, current_code_block := none
    current_paragraph := [] }

/-- Flush `current_paragraph` into a `content` body item (the
`if current_paragraph:` blocks of the source). -/
def flushParagraph (st : ScanState) : ScanState :=
  if st.current_paragraph.isEmpty then st
  else
    { st with
        body := st.body ++ [.content (pyJoin [' '] st.current_paragraph) (("text").data)]
        current_paragraph := [] }

/-- Close the open list (the `if in_list and current_list:` blocks). -/
def closeListIf (st : ScanState) : ScanState :=
  if st.in_list && !st.current_list.isEmpty then
    { st with
        body := st.body ++ [.list st.current_list]
        current_list := [], in_list := false }
  else st

/-- The blank-line lookahead: whether the next non-blank line is a list item. -/
def nextIsList : List Str → Bool
  | [] => false
  | l :: rest =>
    let s := pyStrip l
    if s.isEmpty then nextIsList rest else is_list_item s

/-- The image regex `!\[([^\]]*)\]\(([^)]+)\)` applied with `re.match`
(anchored at the start, trailing text allowed); returns `(alt, path)`. -/
def imageMatch : Str → Option (Str × Str)
  | '!' :: '[' :: t =>
    let alt := t.takeWhile (fun c => c != ']')
    (match t.drop alt.length with
      | ']' :: '(' :: u =>
        let path := u.takeWhile (fun c => c != ')')
        if path.isEmpty then none
        else
          match u.drop path.length with
          | ')' :: _ => some (alt, path)
          | _ => none
      | _ => none)
  | _ => none

/-- The sub-heading branches (`###` … `######`): if a title exists the
heading is pushed as content with the given tag, otherwise it becomes the
title (malformed-hierarchy recovery). -/
def subHeading (st : ScanState) (header_text : Str) (tag : Str) : ScanState :=
  let st1 := closeListIf (flushParagraph st)
  if !st1.title.isEmpty then
    { st1 with body := st1.body ++ [.content header_text tag] }
  else { st1 with title := header_text }

/-- The per-line loop of `parse_slide_content`.  The fuel argument equals
the number of remaining lines at every call (each step consumes one line
and, in the table branch, replaces the consumed lookahead lines by the
empty lines the source's `lines[k] = ""` mutation leaves behind, keeping
the list length unchanged), so the recursion mirrors the Python `for`
loop over the mutated `lines` array exactly. -/
def scanLines : Nat → ScanState → List Str → ScanState
  | 0, st, _ => st
  | _ + 1, st, [] => st
  | fuel + 1, st, line :: rest =>
    let ls := pyStrip line
    if ls.isEmpty then
      let st1 := flushParagraph st
      let st2 :=
        if st1.in_list && !st1.current_list.isEmpty && !nextIsList rest then
          { st1 with
              body := st1.body ++ [.list st1.current_list]
              current_list := [], in_list := false }
        else st1
      scanLines fuel st2 rest
    else if is_table_row ls || is_table_separator ls then
      let st1 := closeListIf (flushParagraph st)
      let tableTail :=
        rest.takeWhile (fun l2 => is_table_row (pyStrip l2) || is_table_separator (pyStrip l2))
      let table_lines := line :: tableTail
      let st2 :=
        match parse_table table_lines with
        | .ok t => { st1 with body := st1.body ++ [.table t] }
        | .error _ =>
          { st1 with
              current_paragraph := st1.current_paragraph ++
                table_lines.filterMap (fun tl =>
                  if (pyStrip tl).isEmpty then none else some (pyStrip tl)) }
      scanLines fuel st2 (List.replicate tableTail.length [] ++ rest.drop tableTail.length)
    else if ("```").data.isPrefixOf ls then
      let st1 := flushParagraph st
      if !st1.in_code_block then
        let st2 := closeListIf st1
        scanLines fuel
          { st2 with
              in_code_block := true
              current_code_block := some ⟨pyStrip (ls.drop 3), []⟩ } rest
      else
        scanLines fuel
          { st1 with
              code_blocks := st1.code_blocks ++ st1.current_code_block.toList
              current_code_block := none, in_code_block := false } rest
    else if st.in_code_block then
      scanLines fuel
        { st with
            current_code_block := st.current_code_block.map (fun cb =>
              { cb with code := if cb.code.isEmpty then line else cb.code ++ '\n' :: line }) }
        rest
    else if ("# ").data.isPrefixOf ls then
      scanLines fuel { closeListIf (flushParagraph st) with title := pyStrip (ls.drop 2) } rest
    else if ("## ").data.isPrefixOf ls then
      scanLines fuel { closeListIf (flushParagraph st) with title := pyStrip (ls.drop 3) } rest
    else if ("### ").data.isPrefixOf ls then
      scanLines fuel (subHeading st (pyStrip (ls.drop 4)) (("h3").data)) rest
    else if ("#### ").data.isPrefixOf ls then
      scanLines fuel (subHeading st (pyStrip (ls.drop 5)) (("h4").data)) rest
    else if ("##### ").data.isPrefixOf ls then
      scanLines fuel (subHeading st (pyStrip (ls.drop 6)) (("h5").data)) rest
    else if ("###### ").data.isPrefixOf ls then
      scanLines fuel (subHeading st (pyStrip (ls.drop 7)) (("h6").data)) rest
    else if ("![").data.isPrefixOf ls then
      let st1 := closeListIf (flushParagraph st)
      let st2 :=
        match imageMatch ls with
        | some (alt, path) => { st1 with images := st1.images ++ [⟨alt, path⟩] }
        | none => st1
      scanLines fuel st2 rest
    else if is_list_item ls then
      let st1 := flushParagraph st
      let st2 := if !st1.in_list then { st1 with in_list := true, current_list := [] } else st1
      let item_text :=
        match orderedListMatch ls with
        | some t => t
        | none =>
          if ("- ").data.isPrefixOf ls then pyStrip (ls.drop 2)
          else if ("* ").data.isPrefixOf ls then pyStrip (ls.drop 2)
          else ls
      scanLines fuel { st2 with current_list := st2.current_list ++ [item_text] } rest
    else if st.in_list &&
        (match line with
          | c :: _ => c == ' ' || c == '\t'
          | [] => false) then
      let st2 :=
        match st.current_list.getLast? with
        | some lastItem =>
          { st with current_list := st.current_list.dropLast ++ [lastItem ++ ' ' :: ls] }
        | none => st
      scanLines fuel st2 rest
    else
      let st1 := closeListIf st
      let st2 :=
        if !(("#").data.isPrefixOf ls) && !ls.isEmpty then
          { st1 with current_paragraph := st1.current_paragraph ++ [ls] }
        else st1
      scanLines fuel st2 rest

/-- Run the scan over a list of lines (fuel = number of lines; see
`scanLines`). -/
def runScan (st : ScanState) (lines : List Str) : ScanState :=
  scanLines lines.length st lines

/-- Index of the first occurrence of `pat` as a contiguous substring. -/
def findSubIdx (pat : Str) : Str → Option Nat
  | [] => if pat.isEmpty then some 0 else none
  | c :: rest =>
    if pat.isPrefixOf (c :: rest) then some 0
    else (findSubIdx pat rest).map (· + 1)

/-- The comment pass of `parse_slide_content`: the regex
`<!--\s*(.*?)\s*-->` (DOTALL) collected with `finditer` and removed with
`re.sub`.  A match runs from a `<!--` to the first following `-->`; its
group is the enclosed text stripped of surrounding whitespace (the greedy
`\s*` plus the later `.strip()`).  Returns (non-empty stripped comment
bodies in order, text with the matched spans removed). -/
def extractComments : Nat → Str → List Str × Str
  | 0, s => ([], s)
  | fuel + 1, s =>
    match findSubIdx ("<!--").data s with
    | none => ([], s)
    | some i =>
      let afterOpen := s.drop (i + 4)
      match findSubIdx ("-->").data afterOpen with
      | none => ([], s)
      | some j =>
        let inner := afterOpen.take j
        let (notes, cleaned) := extractComments fuel (afterOpen.drop (j + 3))
        let note := pyStrip inner
        ((if note.isEmpty then notes else note :: notes), s.take i ++ cleaned)

/-- The speaker-note bodies collected from a slide. -/
def slideNotes (slide_markdown : Str) : List Str :=
  (extractComments slide_markdown.length slide_markdown).1

/-- The final scan state after the line loop (before the end-of-input
flushes). -/
def scanState (slide_markdown : Str) : ScanState :=
  let cleaned := (extractComments slide_markdown.length slide_markdown).2
  runScan initState (splitBy (fun c => c == '\n') cleaned)

/-- The dictionary returned by `parse_slide_content`, with the
backward-compatibility projection `content`/`content_types`/`lists`. -/
structure SlideData where
  title : Str
  body : List BodyItem
  images : List ImageRef
  code_blocks : List CodeBlock
  speaker_notes : Str
  content : List Str
  content_types : List Str
  lists : List (List Str)
deriving DecidableEq

/-- `parse_slide_content` from `slides.py`. -/
def parse_slide_content (slide_markdown : Str) : SlideData :=
  let st0 := scanState slide_markdown
  let st1 := closeListIf (flushParagraph st0)
  let st :=
    if st1.in_code_block && st1.current_code_block.isSome then
      { st1 with code_blocks := st1.code_blocks ++ st1.current_code_block.toList }
    else st1
  { title := st.title
    body := st.body
    images := st.images
    code_blocks := st.code_blocks
    speaker_notes := pyJoin ('\n' :: '\n' :: []) (slideNotes slide_markdown)
    content := st.body.filterMap (fun b =>
      match b with
      | .content t _ => some t
      | _ => none)
    content_types := st.body.filterMap (fun b =>
      match b with
      | .content _ ct => some ct
      | _ => none)
    lists := st.body.filterMap (fun b =>
      match b with
      | .list items => some items
      | _ => none) }

/-! ## code.py -/

/-- `pptx.dml.color.RGBColor`. -/
structure RGBColor where
  r : Nat
  g : Nat
  b : Nat
deriving DecidableEq

/-- One tokenizer output entry (`{"text": ..., "color": ...}`). -/
structure Token where
  text : Str
  color : RGBColor
deriving DecidableEq

/-- Python `str.isdigit()` for ASCII text. -/
def pyIsDigit (s : Str) : Bool := !s.isEmpty && s.all Char.isDigit

/-- Python `str.replace(c, "", 1)`: remove the first occurrence of `c`. -/
def removeFirstOcc (c : Char) : Str → Str
  | [] => []
  | d :: rest => if d = c then rest else d :: removeFirstOcc c rest

/-- The per-language keyword sets of `get_syntax_color`. -/
def keywordsFor (language : Str) : Option (List Str) :=
  if language = ("python").data then some
    [("def").data, ("class").data, ("if").data, ("else").data, ("elif").data,
     ("for").data, ("while").data, ("import").data, ("from").data, ("return").data,
     ("try").data, ("except").data, ("finally").data, ("with").data, ("as").data,
     ("pass").data, ("break").data, ("continue").data, ("raise").data, ("lambda").data,
     ("and").data, ("or").data, ("not").data, ("in").data, ("is").data,
     ("None").data, ("True").data, ("False").data, ("yield").data, ("assert").data,
     ("del").data, ("global").data, ("nonlocal").data, ("async").data, ("await").data]
  else if language = ("javascript").data then some
    [("function").data, ("var").data, ("let").data, ("const").data, ("if").data,
     ("else").data, ("for").data, ("while").data, ("do").data, ("switch").data,
     ("case").data, ("break").data, ("continue").data, ("return").data, ("try").data,
     ("catch").data, ("finally").data, ("throw").data, ("new").data, ("this").data,
     ("class").data, ("extends").data, ("import").data, ("export").data, ("default").data,
     ("async").data, ("await").data, ("typeof").data, ("instanceof").data, ("void").data,
     ("null").data, ("undefined").data, ("true").data, ("false").data]
  else if language = ("java").data then some
    [("public").data, ("private").data, ("protected").data, ("static").data,
     ("final").data, ("class").data, ("interface").data, ("enum").data,
     ("extends").data, ("implements").data, ("if").data, ("else").data, ("for").data,
     ("while").data, ("do").data, ("switch").data, ("case").data, ("break").data,
     ("continue").data, ("return").data, ("try").data, ("catch").data, ("finally").data,
     ("throw").data, ("new").data, ("this").data, ("super").data, ("void").data,
     ("true").data, ("false").data, ("null").data, ("import").data, ("package").data,
     ("abstract").data, ("synchronized").data]
  else if language = ("go").data then some
    [("package").data, ("import").data, ("func").data, ("type").data, ("struct").data,
     ("interface").data, ("if").data, ("else").data, ("for").data, ("range").data,
     ("switch").data, ("case").data, ("default").data, ("break").data, ("continue").data,
     ("goto").data, ("return").data, ("defer").data, ("go").data, ("const").data,
     ("var").data, ("make").data, ("new").data, ("true").data, ("false").data,
     ("iota").data, ("nil").data, ("map").data, ("chan").data, ("select").data]
  else if language = ("bash").data then some
    [("if").data, ("then").data, ("else").data, ("elif").data, ("fi").data,
     ("case").data, ("esac").data, ("for").data, ("while").data, ("until").data,
     ("do").data, ("done").data, ("break").data, ("continue").data, ("function").data,
     ("return").data, ("export").data, ("local").data, ("readonly").data,
     ("declare").data, ("unset").data, ("in").data]
  else if language = ("sql").data then some
    [("select").data, ("from").data, ("where").data, ("and").data, ("or").data,
     ("not").data, ("in").data, ("like").data, ("between").data, ("is").data,
     ("null").data, ("join").data, ("inner").data, ("left").data, ("right").data,
     ("full").data, ("on").data, ("as").data, ("group").data, ("by").data,
     ("having").data, ("order").data, ("distinct").data, ("insert").data, ("into").data,
     ("values").data, ("update").data, ("set").data, ("delete").data, ("create").data,
     ("table").data, ("database").data, ("index").data, ("alter").data, ("drop").data,
     ("truncate").data, ("case").data, ("when").data, ("then").data, ("end").data]
  else if language = ("yaml").data then some
    [("true").data, ("false").data, ("yes").data, ("no").data, ("on").data,
     ("off").data, ("null").data]
  else if language = ("json").data then some
    [("true").data, ("false").data, ("null").data]
  else none

/-- `get_syntax_color` from `code.py`.  The Python function's `Optional`
return is never `None` (the last line returns the default color), so the
result type is plain `RGBColor`. -/
def get_syntax_color (token language0 : Str) : RGBColor :=
  let keywordColor : RGBColor := ⟨197, 134, 192⟩
  let stringColor : RGBColor := ⟨206, 145, 120⟩
  let commentColor : RGBColor := ⟨106, 153, 85⟩
  let numberColor : RGBColor := ⟨181, 206, 168⟩
  let functionColor : RGBColor := ⟨220, 220, 170⟩
  let defaultColor : RGBColor := ⟨230, 230, 230⟩
  let language1 := pyStrip (pyLower language0)
  let language :=
    if language1 = ("js").data then ("javascript").data
    else if language1 = ("shell").data then ("bash").data
    else language1
  if (token.head? == some '"' && token.getLast? == some '"') ||
      (token.head? == some '\'' && token.getLast? == some '\'') then stringColor
  else if (language = ("python").data || language = ("bash").data ||
      language = ("yaml").data) && token.head? == some '#' then commentColor
  else if (language = ("javascript").data || language = ("java").data ||
      language = ("go").data) && ("//").data.isPrefixOf token then commentColor
  else if language = ("sql").data &&
      (("--").data.isPrefixOf token || ("/*").data.isPrefixOf token) then commentColor
  else if pyIsDigit token ||
      (("-").data.isPrefixOf token && pyIsDigit (removeFirstOcc '.' (token.drop 1))) ||
      (pyIsDigit (removeFirstOcc '.' token) && token.contains '.') then numberColor
  else if (match keywordsFor language with
    | some kws => kws.contains (pyLower token)
    | none => false) then keywordColor
  else if token.getLast? == some '(' || ("()").data.isSuffixOf token then functionColor
  else defaultColor

/-- The string-literal loop of `tokenize_code`: after an opening quote `q`,
consume up to and including the closing quote, taking a backslash together
with its following character; an unterminated literal runs to the end.
Returns (consumed characters, remaining input). -/
def scanStringBody (q : Char) : Str → Str × Str
  | [] => ([], [])
  | c :: rest =>
    if c = q then ([c], rest)
    else if c = '\\' then
      match rest with
      | [] => ([c], [])
      | d :: rest2 =>
        let (t, r) := scanStringBody q rest2
        (c :: d :: t, r)
    else
      let (t, r) := scanStringBody q rest
      (c :: t, r)

/-- The languages `tokenize_code` supports. -/
def supportedLanguages : List Str :=
  [("python").data, ("javascript").data, ("js").data, ("java").data, ("go").data,
   ("bash").data, ("shell").data, ("sql").data, ("yaml").data, ("json").data]

/-- The character scan of `tokenize_code` for a supported language.  Fuel
is at least the input length; every branch consumes at least one
character. -/
def tokenizeLoop (language : Str) : Nat → Str → List Token
  | 0, _ => []
  | _ + 1, [] => []
  | fuel + 1, c :: rest =>
    if isPyWs c then
      let ws := (c :: rest).takeWhile isPyWs
      ⟨ws, ⟨212, 212, 212⟩⟩ :: tokenizeLoop language fuel ((c :: rest).dropWhile isPyWs)
    else if c = '"' then
      let (t, r) := scanStringBody '"' rest
      ⟨'"' :: t, get_syntax_color ('"' :: t) language⟩ :: tokenizeLoop language fuel r
    else if c = '\'' then
      let (t, r) := scanStringBody '\'' rest
      ⟨'\'' :: t, get_syntax_color ('\'' :: t) language⟩ :: tokenizeLoop language fuel r
    else if (language = ("python").data || language = ("bash").data ||
        language = ("yaml").data) && c = '#' then
      let comment := (c :: rest).takeWhile (fun ch => ch != '\n')
      ⟨comment, get_syntax_color comment language⟩ ::
        tokenizeLoop language fuel ((c :: rest).dropWhile (fun ch => ch != '\n'))
    else if (language = ("javascript").data || language = ("js").data ||
        language = ("java").data || language = ("go").data) &&
        c = '/' && rest.head? == some '/' then
      let comment := (c :: rest).takeWhile (fun ch => ch != '\n')
      ⟨comment, get_syntax_color comment language⟩ ::
        tokenizeLoop language fuel ((c :: rest).dropWhile (fun ch => ch != '\n'))
    else if language = ("sql").data && c = '-' && rest.head? == some '-' then
      let comment := (c :: rest).takeWhile (fun ch => ch != '\n')
      ⟨comment, get_syntax_color comment language⟩ ::
        tokenizeLoop language fuel ((c :: rest).dropWhile (fun ch => ch != '\n'))
    else if c.isAlpha || c = '_' then
      let token_text := (c :: rest).takeWhile (fun ch => ch.isAlphanum || ch == '_')
      ⟨token_text, get_syntax_color token_text language⟩ ::
        tokenizeLoop language fuel ((c :: rest).dropWhile (fun ch => ch.isAlphanum || ch == '_'))
    else if c.isDigit then
      let number_text := (c :: rest).takeWhile (fun ch => ch.isDigit || ch == '.')
      ⟨number_text, get_syntax_color number_text language⟩ ::
        tokenizeLoop language fuel ((c :: rest).dropWhile (fun ch => ch.isDigit || ch == '.'))
    else
      ⟨[c], ⟨212, 212, 212⟩⟩ :: tokenizeLoop language fuel rest

/-- `tokenize_code` from `code.py`. -/
def tokenize_code (code language : Str) : List Token :=
  let language_normalized := pyStrip (pyLower language)
  if !supportedLanguages.contains language_normalized then
    [⟨code, ⟨212, 212, 212⟩⟩]
  else if code.isEmpty then []
  else tokenizeLoop language_normalized code.length code

/-- Concatenation of the token texts, in order. -/
def concatTokenText : List Token → Str
  | [] => []
  | t :: ts => t.text ++ concatTokenText ts

/-- Modelled from the spec: "re-joining the slide texts with `S` on its own
line" — the slides joined by a newline, the separator, and a newline. -/
def rejoinWithSeparator (separator : Str) (slides : List Str) : Str :=
  pyJoin ('\n' :: (separator ++ ['\n'])) slides

/-- A line made only of `[ \t]` characters (consumed whole when `strip()`
eats the front or back of a newline-joined chunk). -/
def lineAllBlank (l : Str) : Bool := l.all isBlankChar

/-- The effect of the leading part of `strip()` on a chunk's line list:
all-blank leading lines disappear and the first surviving line loses its
leading blanks. -/
def trimFrontLines (ls : List Str) : List Str :=
  match ls.dropWhile lineAllBlank with
  | [] => []
  | h :: t => h.dropWhile isBlankChar :: t

/-- The trailing counterpart of `trimFrontLines`. -/
def trimBackLines (ls : List Str) : List Str :=
  match ls.reverse.dropWhile lineAllBlank with
  | [] => []
  | h :: t => ((dropTrailing isBlankChar h) :: t).reverse

/-- `strip()` of a newline-join, described at the line level. -/
def normChunk (ls : List Str) : List Str := trimBackLines (trimFrontLines ls)

/-! ## Theorems -/

/-- C1: order preservation of `body`.  The spec's witness input mixing a
title, two sub-headings, a paragraph run, and a list yields exactly the
body sequence of its leading lines, in source order. -/
theorem c1_body_order :
    (parse_slide_content (("## T\n### A\ntext1\n- i1\n- i2\n### B\ntext2").data)).body =
      [BodyItem.content (("A").data) (("h3").data),
       BodyItem.content (("text1").data) (("text").data),
       BodyItem.list [("i1").data, ("i2").data],
       BodyItem.content (("B").data) (("h3").data),
       BodyItem.content (("text2").data) (("text").data)] := by decide

theorem collectDataRows_spec (post : List Str) :
    ∀ al : List Str,
      al.length ≤ (collectDataRows post al).2.length ∧
        ∀ r ∈ (collectDataRows post al).1, r.length ≤ (collectDataRows post al).2.length := by
  induction post with
  | nil => intro al; simp [collectDataRows]
  | cons a rest ih =>
    intro al
    by_cases hb : (pyStrip a).isEmpty = true
    · simpa [collectDataRows, hb] using ih al
    · by_cases hrow : is_table_row (pyStrip a) = true
      · by_cases hlt : (parse_table_row a).length < al.length
        · rcases hE : collectDataRows rest al with ⟨rs, af⟩
          have hal : al.length ≤ af.length := by
            have h0 := (ih al).1
            rw [hE] at h0
            exact h0
          have hrs : ∀ r ∈ rs, r.length ≤ af.length := by
            have h0 := (ih al).2
            rw [hE] at h0
            exact h0
          simp only [collectDataRows, hb, hrow, hlt, if_true, if_false, Bool.not_true,
            Bool.false_eq_true, hE]
          refine ⟨hal, ?_⟩
          intro r hr
          simp only [List.mem_cons] at hr
          rcases hr with rfl | hr
          · show (parse_table_row a ++
                List.replicate (al.length - (parse_table_row a).length) []).length ≤ af.length
            simp only [List.length_append, List.length_replicate]
            omega
          · exact hrs r hr
        · by_cases hgt : al.length < (parse_table_row a).length
          · rcases hE : collectDataRows rest
                (al ++ List.replicate ((parse_table_row a).length - al.length) (("left").data))
              with ⟨rs, af⟩
            have hal : (al ++ List.replicate ((parse_table_row a).length - al.length)
                (("left").data)).length ≤ af.length := by
              have h0 := (ih (al ++ List.replicate ((parse_table_row a).length - al.length)
                (("left").data))).1
              rw [hE] at h0
              exact h0
            have hrs : ∀ r ∈ rs, r.length ≤ af.length := by
              have h0 := (ih (al ++ List.replicate ((parse_table_row a).length - al.length)
                (("left").data))).2
              rw [hE] at h0
              exact h0
            simp only [List.length_append, List.length_replicate] at hal
            simp only [collectDataRows, hb, hrow, hlt, hgt, if_true, if_false, Bool.not_true,
              Bool.false_eq_true, hE]
            refine ⟨show al.length ≤ af.length by omega, ?_⟩
            intro r hr
            simp only [List.mem_cons] at hr
            rcases hr with rfl | hr
            · show (parse_table_row a).length ≤ af.length
              omega
            · exact hrs r hr
          · rcases hE : collectDataRows rest al with ⟨rs, af⟩
            have hal : al.length ≤ af.length := by
              have h0 := (ih al).1
              rw [hE] at h0
              exact h0
            have hrs : ∀ r ∈ rs, r.length ≤ af.length := by
              have h0 := (ih al).2
              rw [hE] at h0
              exact h0
            simp only [collectDataRows, hb, hrow, hlt, hgt, if_true, if_false, Bool.not_true,
              Bool.false_eq_true, hE]
            refine ⟨hal, ?_⟩
            intro r hr
            simp only [List.mem_cons] at hr
            rcases hr with rfl | hr
            · show (parse_table_row a).length ≤ af.length
              omega
            · exact hrs r hr
      · simp only [collectDataRows, hb, hrow, if_true, if_false, Bool.not_true, Bool.not_false,
          Bool.false_eq_true]
        simp

/-- C2 counterexample: on a block whose alignment row has three columns, a
two-cell data row followed by a four-cell data row, the first row is padded
only to the three columns current at its turn, while the four-cell row later
extends `alignments` to four entries; the returned rows are therefore not all
of the final alignment length, refuting the claim's equal-length invariant. -/
theorem c2_counterexample :
    ¬ (∀ t, parse_table
        [("|---|---|---|").data, ("| a | b |").data, ("| c | d | e | f |").data] =
          Except.ok t → ∀ r ∈ t.rows, r.length = t.alignments.length) := by
  intro h
  have h2 := h
    ⟨false, [],
      [[("a").data, ("b").data, []], [("c").data, ("d").data, ("e").data, ("f").data]],
      [("left").data, ("left").data, ("left").data, ("left").data],
      [("|---|---|---|").data, ("| a | b |").data, ("| c | d | e | f |").data]⟩
    (by rfl)
  have h3 := h2 [("a").data, ("b").data, []] (by decide)
  exact absurd h3 (by decide)

/-- C2 (amended): on success, `headers` and `alignments` have equal length
whenever `has_header` is set, and every data row is no longer than
`alignments` (data is never truncated; short rows are padded with `""`, a
wider row extends `alignments` with `"left"`); rows parsed before a later,
wider row keep the alignment width current at their turn, so they can be
strictly shorter than the final `alignments`. -/
theorem c2_table_shape (table_lines : List Str) (t : Table)
    (h : parse_table table_lines = Except.ok t) :
    (t.has_header = true → t.headers.length = t.alignments.length) ∧
      (∀ r ∈ t.rows, r.length ≤ t.alignments.length) := by
  unfold parse_table at h
  split at h
  · exact absurd h (by simp)
  · rcases hsep : splitAtSeparator table_lines with _ | ⟨pre, sepLine, post⟩
    · rw [hsep] at h; exact absurd h (by simp)
    · rw [hsep] at h
      simp only at h
      rcases hcd : collectDataRows post (parse_table_alignment sepLine) with ⟨data_rows, al1⟩
      rw [hcd] at h
      have hrows : ∀ r ∈ data_rows, r.length ≤ al1.length := by
        intro r hr
        have := (collectDataRows_spec post (parse_table_alignment sepLine)).2 r
        rw [hcd] at this
        exact this hr
      set headers := (match pre.getLast? with
        | some hl => parse_table_row hl
        | none => ([] : List Str)) with hhdef
      split at h
      · rename_i hc
        simp only [Bool.and_eq_true, decide_eq_true_eq] at hc
        cases h
        refine ⟨fun _ => ?_, hrows⟩
        simp only [List.length_append, List.length_replicate]
        omega
      · split at h
        · rename_i hc1 hc2
          simp only [Bool.and_eq_true, decide_eq_true_eq] at hc2
          cases h
          constructor
          · intro _
            simp only [List.length_append, List.length_replicate]
            omega
          · intro r hr
            have := hrows r hr
            simp only [List.length_append, List.length_replicate]
            omega
        · rename_i hc1 hc2
          cases h
          refine ⟨fun hh => ?_, hrows⟩
          dsimp only at hh ⊢
          simp only [hh, Bool.true_and, decide_eq_true_eq] at hc1 hc2
          omega

/-- C2 witness: the amended invariant at the spec's round-trip example. -/
theorem c2_table_shape_witness :
    (∀ r ∈ [[("1").data, ("2").data]], List.length r ≤ 2) ∧ (2 = 2) := by
  have h := c2_table_shape
    [("| A | B |").data, ("|---|---|").data, ("| 1 | 2 |").data]
    ⟨true, [("A").data, ("B").data], [[("1").data, ("2").data]],
      [("left").data, ("left").data],
      [("| A | B |").data, ("|---|---|").data, ("| 1 | 2 |").data]⟩
    (by rfl)
  exact ⟨h.2, rfl⟩

theorem splitAtSeparator_eq_none_iff (ls : List Str) :
    splitAtSeparator ls = none ↔ ∀ l ∈ ls, is_table_separator (pyStrip l) = false := by
  induction ls with
  | nil => simp [splitAtSeparator]
  | cons a rest ih =>
    simp only [splitAtSeparator]
    by_cases ha : is_table_separator (pyStrip a) = true
    · simp [ha]
    · constructor
      · intro h l hl
        simp only [List.mem_cons] at hl
        rcases hl with rfl | hl
        · exact Bool.eq_false_iff.mpr ha
        · refine ih.mp ?_ l hl
          rcases hE : splitAtSeparator rest with _ | ⟨pre, s, post⟩
          · rfl
          · rw [if_neg ha, hE] at h
            exact absurd h (by simp)
      · intro h
        have h1 : splitAtSeparator rest = none :=
          ih.mpr (fun l hl => h l (List.mem_cons_of_mem _ hl))
        rw [if_neg ha, h1]

/-- C6: `parse_table` signals a `TableParseError` exactly when no line of the
supplied block is an alignment-separator row (the empty block included), and
`parse_slide_content` absorbs that failure internally: the collected
pipe-containing lines are folded back into ordinary paragraph content, as on
the two-row, separator-less block `"a | b\nc | d"`. -/
theorem c6_table_error_contained :
    (∀ table_lines : List Str,
        (∃ e, parse_table table_lines = Except.error e) ↔
          ∀ l ∈ table_lines, is_table_separator (pyStrip l) = false) ∧
      (parse_slide_content (("a | b\nc | d").data)).body =
        [BodyItem.content (("a | b c | d").data) (("text").data)] := by
  constructor
  · intro table_lines
    constructor
    · rintro ⟨e, he⟩ l hl
      by_cases hemp : table_lines.isEmpty = true
      · rw [List.isEmpty_iff] at hemp
        subst hemp
        simp at hl
      · unfold parse_table at he
        rw [if_neg hemp] at he
        rcases hE : splitAtSeparator table_lines with _ | ⟨pre, s, post⟩
        · exact (splitAtSeparator_eq_none_iff _).mp hE l hl
        · rw [hE] at he
          exact absurd he (by simp)
    · intro hall
      by_cases hemp : table_lines.isEmpty = true
      · exact ⟨.emptyLines, by unfold parse_table; rw [if_pos hemp]⟩
      · have hn : splitAtSeparator table_lines = none :=
          (splitAtSeparator_eq_none_iff _).mpr hall
        exact ⟨.noSeparatorRow, by unfold parse_table; rw [if_neg hemp, hn]⟩
  · decide

/-- C6 witness: a concrete separator-less block makes `parse_table` fail. -/
theorem c6_witness :
    ∃ e, parse_table [("a | b").data, ("c | d").data] = Except.error e :=
  (c6_table_error_contained.1 [("a | b").data, ("c | d").data]).mpr (by decide)

/-- C8: an unsupported language tag (after lowercasing and trimming)
degrades to a single token holding the entire input with the fixed default
gray `RGBColor(212, 212, 212)`. -/
theorem c8_unsupported_language (code language : Str)
    (h : supportedLanguages.contains (pyStrip (pyLower language)) = false) :
    tokenize_code code language = [⟨code, ⟨212, 212, 212⟩⟩] := by
  unfold tokenize_code
  simp only [h, Bool.not_false, if_true]

/-- C8 witness: tokenizing ruby code returns the whole input as one default
token. -/
theorem c8_witness :
    tokenize_code (("x = 1").data) (("ruby").data) =
      [⟨("x = 1").data, ⟨212, 212, 212⟩⟩] :=
  c8_unsupported_language (("x = 1").data) (("ruby").data) (by decide)

theorem scanStringBody_append (q : Char) :
    ∀ s : Str, (scanStringBody q s).1 ++ (scanStringBody q s).2 = s ∧
      (scanStringBody q s).2.length ≤ s.length := by
  suffices H : ∀ (n : Nat) (s : Str), s.length ≤ n →
      (scanStringBody q s).1 ++ (scanStringBody q s).2 = s ∧
        (scanStringBody q s).2.length ≤ s.length from
    fun s => H s.length s le_rfl
  intro n
  induction n with
  | zero =>
    intro s h
    have hs : s = [] := List.length_eq_zero.mp (Nat.le_zero.mp h)
    subst hs
    simp [scanStringBody]
  | succ n ih =>
    intro s h
    rcases s with _ | ⟨c, rest⟩
    · simp [scanStringBody]
    · by_cases hq : c = q
      · rw [scanStringBody.eq_def]
        simp only [if_pos hq]
        simp
      · by_cases hb : c = '\\'
        · rcases rest with _ | ⟨d, rest2⟩
          · simp [scanStringBody, hq, hb]
          · have h2 := ih rest2 (by simp at h; omega)
            rcases hE : scanStringBody q rest2 with ⟨t, r⟩
            have h21 : t ++ r = rest2 := by rw [hE] at h2; exact h2.1
            have h22 : r.length ≤ rest2.length := by rw [hE] at h2; exact h2.2
            rw [scanStringBody.eq_def]
            simp only [if_neg hq, if_pos hb, hE]
            constructor
            · show c :: d :: t ++ r = c :: d :: rest2
              simp [h21]
            · show r.length ≤ (c :: d :: rest2).length
              simp
              omega
        · have h2 := ih rest (by simp at h; omega)
          rcases hE : scanStringBody q rest with ⟨t, r⟩
          have h21 : t ++ r = rest := by rw [hE] at h2; exact h2.1
          have h22 : r.length ≤ rest.length := by rw [hE] at h2; exact h2.2
          rw [scanStringBody.eq_def]
          simp only [if_neg hq, if_neg hb, hE]
          constructor
          · show c :: t ++ r = c :: rest
            simp [h21]
          · show r.length ≤ (c :: rest).length
            simp
            omega

theorem dropWhile_cons_length_le {p : Char → Bool} {c : Char} {rest : Str}
    (hp : p c = true) : (List.dropWhile p (c :: rest)).length ≤ rest.length := by
  rw [List.dropWhile_cons_of_pos hp]
  exact (rest.dropWhile_sublist p).length_le

theorem tokenizeLoop_concat (language : Str) :
    ∀ (n : Nat) (s : Str), s.length ≤ n →
      concatTokenText (tokenizeLoop language n s) = s := by
  intro n
  induction n with
  | zero =>
    intro s h
    have hs : s = [] := List.length_eq_zero.mp (Nat.le_zero.mp h)
    subst hs
    rfl
  | succ n ih =>
    intro s h
    rcases s with _ | ⟨c, rest⟩
    · rfl
    · have hlen : rest.length ≤ n := by simpa using h
      simp only [tokenizeLoop]
      by_cases h1 : isPyWs c = true
      · rw [if_pos h1]
        simp only [concatTokenText]
        rw [ih _ (le_trans (dropWhile_cons_length_le h1) hlen)]
        exact List.takeWhile_append_dropWhile isPyWs (c :: rest)
      · rw [if_neg h1]
        by_cases h2 : c = '"'
        · rw [if_pos h2]
          rcases hE : scanStringBody '"' rest with ⟨t, r⟩
          have hsb := scanStringBody_append '"' rest
          rw [hE] at hsb
          have hsb1 : t ++ r = rest := hsb.1
          have hsb2 : r.length ≤ rest.length := hsb.2
          simp only [concatTokenText]
          rw [ih r (le_trans hsb2 hlen), h2, List.cons_append, hsb1]
        · rw [if_neg h2]
          by_cases h3 : c = '\''
          · rw [if_pos h3]
            rcases hE : scanStringBody '\'' rest with ⟨t, r⟩
            have hsb := scanStringBody_append '\'' rest
            rw [hE] at hsb
            have hsb1 : t ++ r = rest := hsb.1
            have hsb2 : r.length ≤ rest.length := hsb.2
            simp only [concatTokenText]
            rw [ih r (le_trans hsb2 hlen), h3, List.cons_append, hsb1]
          · rw [if_neg h3]
            by_cases h4 : ((language = ("python").data || language = ("bash").data ||
                language = ("yaml").data) && c = '#') = true
            · rw [if_pos h4]
              have hc : c = '#' := by
                simp only [Bool.and_eq_true, decide_eq_true_eq] at h4
                exact h4.2
              have hpc : (c != '\n') = true := by simp [hc]
              simp only [concatTokenText]
              rw [ih _ (le_trans (dropWhile_cons_length_le (p := fun ch => ch != '\n') hpc) hlen)]
              exact List.takeWhile_append_dropWhile (fun ch => ch != '\n') (c :: rest)
            · rw [if_neg h4]
              by_cases h5 : ((language = ("javascript").data || language = ("js").data ||
                  language = ("java").data || language = ("go").data) &&
                  c = '/' && rest.head? == some '/') = true
              · rw [if_pos h5]
                have hc : c = '/' := by
                  simp only [Bool.and_eq_true, decide_eq_true_eq] at h5
                  exact h5.1.2
                have hpc : (c != '\n') = true := by simp [hc]
                simp only [concatTokenText]
                rw [ih _ (le_trans (dropWhile_cons_length_le (p := fun ch => ch != '\n') hpc) hlen)]
                exact List.takeWhile_append_dropWhile (fun ch => ch != '\n') (c :: rest)
              · rw [if_neg h5]
                by_cases h6 : (language = ("sql").data && c = '-' &&
                    rest.head? == some '-') = true
                · rw [if_pos h6]
                  have hc : c = '-' := by
                    simp only [Bool.and_eq_true, decide_eq_true_eq] at h6
                    exact h6.1.2
                  have hpc : (c != '\n') = true := by simp [hc]
                  simp only [concatTokenText]
                  rw [ih _ (le_trans (dropWhile_cons_length_le (p := fun ch => ch != '\n') hpc) hlen)]
                  exact List.takeWhile_append_dropWhile (fun ch => ch != '\n') (c :: rest)
                · rw [if_neg h6]
                  by_cases h7 : (c.isAlpha || c = '_') = true
                  · rw [if_pos h7]
                    have hpc : (c.isAlphanum || c == '_') = true := by
                      simp only [Bool.or_eq_true, decide_eq_true_eq] at h7
                      rcases h7 with h7 | h7
                      · simp [Char.isAlphanum, h7]
                      · simp [h7]
                    simp only [concatTokenText]
                    rw [ih _ (le_trans (dropWhile_cons_length_le (p := fun ch => ch.isAlphanum || ch == '_') hpc) hlen)]
                    exact List.takeWhile_append_dropWhile (fun ch => ch.isAlphanum || ch == '_') (c :: rest)
                  · rw [if_neg h7]
                    by_cases h8 : c.isDigit = true
                    · rw [if_pos h8]
                      have hpc : (c.isDigit || c == '.') = true := by simp [h8]
                      simp only [concatTokenText]
                      rw [ih _ (le_trans (dropWhile_cons_length_le (p := fun ch => ch.isDigit || ch == '.') hpc) hlen)]
                      exact List.takeWhile_append_dropWhile (fun ch => ch.isDigit || ch == '.') (c :: rest)
                    · rw [if_neg h8]
                      simp only [concatTokenText]
                      rw [ih rest hlen]
                      rfl

/-- C9: tokenization is lossless — for every code string and language tag,
concatenating the `text` fields of the tokens of `tokenize_code`, in order,
reproduces the input exactly. -/
theorem c9_tokenize_lossless (code language : Str) :
    concatTokenText (tokenize_code code language) = code := by
  unfold tokenize_code
  by_cases hs : supportedLanguages.contains (pyStrip (pyLower language)) = true
  · rw [if_neg (by rw [hs]; decide)]
    by_cases he : code.isEmpty = true
    · rw [if_pos he, List.isEmpty_iff.mp he]
      rfl
    · rw [if_neg he]
      exact tokenizeLoop_concat _ code.length code le_rfl
  · rw [if_pos (by rw [Bool.eq_false_iff.mpr hs]; decide)]
    simp [concatTokenText]

@[simp] theorem flushParagraph_code_blocks (st : ScanState) :
    (flushParagraph st).code_blocks = st.code_blocks := by
  unfold flushParagraph
  split <;> rfl

@[simp] theorem flushParagraph_in_code_block (st : ScanState) :
    (flushParagraph st).in_code_block = st.in_code_block := by
  unfold flushParagraph
  split <;> rfl

@[simp] theorem flushParagraph_current_code_block (st : ScanState) :
    (flushParagraph st).current_code_block = st.current_code_block := by
  unfold flushParagraph
  split <;> rfl

@[simp] theorem flushParagraph_title (st : ScanState) :
    (flushParagraph st).title = st.title := by
  unfold flushParagraph
  split <;> rfl

@[simp] theorem flushParagraph_images (st : ScanState) :
    (flushParagraph st).images = st.images := by
  unfold flushParagraph
  split <;> rfl

@[simp] theorem closeListIf_code_blocks (st : ScanState) :
    (closeListIf st).code_blocks = st.code_blocks := by
  unfold closeListIf
  split <;> rfl

@[simp] theorem closeListIf_in_code_block (st : ScanState) :
    (closeListIf st).in_code_block = st.in_code_block := by
  unfold closeListIf
  split <;> rfl

@[simp] theorem closeListIf_current_code_block (st : ScanState) :
    (closeListIf st).current_code_block = st.current_code_block := by
  unfold closeListIf
  split <;> rfl

@[simp] theorem closeListIf_title (st : ScanState) :
    (closeListIf st).title = st.title := by
  unfold closeListIf
  split <;> rfl

@[simp] theorem closeListIf_images (st : ScanState) :
    (closeListIf st).images = st.images := by
  unfold closeListIf
  split <;> rfl

/-- C7: a slide whose scan ends inside an open code fence still produces the
accumulated code block: `parse_slide_content` appends exactly the one open
`CodeBlock` to the `code_blocks` collected so far (no exception; the source
merely logs a warning). -/
theorem c7_unclosed_fence (slide : Str) (cb : CodeBlock)
    (h1 : (scanState slide).in_code_block = true)
    (h2 : (scanState slide).current_code_block = some cb) :
    (parse_slide_content slide).code_blocks = (scanState slide).code_blocks ++ [cb] := by
  unfold parse_slide_content
  have e1 : (closeListIf (flushParagraph (scanState slide))).in_code_block = true := by
    simp [h1]
  have e2 : (closeListIf (flushParagraph (scanState slide))).current_code_block = some cb := by
    simp [h2]
  simp only [e1, e2, Option.isSome_some, Bool.and_self, if_true, Option.toList_some,
    flushParagraph_code_blocks, closeListIf_code_blocks]

/-- C7 witness: a slide ending inside an open `python` fence yields exactly
that code block. -/
theorem c7_witness :
    (parse_slide_content (("```python\nx = 1").data)).code_blocks =
      [⟨("python").data, ("x = 1").data⟩] := by
  have h := c7_unclosed_fence (("```python\nx = 1").data)
    ⟨("python").data, ("x = 1").data⟩ (by decide) (by decide)
  rw [h]
  decide

/-- C4: a blank line whose next non-blank line is a list item does not close
the open list — the scan step only flushes the pending paragraph (leaving
`current_list`/`in_list` untouched) — and concretely `"- a\n\n- b"` produces
the single list `["a", "b"]`. -/
theorem c4_loose_list :
    (∀ (st : ScanState) (line : Str) (rest : List Str),
        (pyStrip line).isEmpty = true → nextIsList rest = true →
        runScan st (line :: rest) = runScan (flushParagraph st) rest) ∧
      (parse_slide_content (("- a\n\n- b").data)).body =
        [BodyItem.list [("a").data, ("b").data]] := by
  constructor
  · intro st line rest hb hn
    unfold runScan
    rw [List.length_cons, scanLines.eq_def]
    simp only [hb, hn, if_true, Bool.not_true, Bool.and_false, if_false]
    rw [if_neg (by decide)]
  · decide

/-- C4 witness: the blank-line step at a concrete state and lookahead. -/
theorem c4_witness :
    runScan initState ([] :: [("- b").data]) = runScan (flushParagraph initState) [("- b").data] :=
  c4_loose_list.1 initState [] [("- b").data] (by decide) (by decide)

/-- C5: title handling.  Outside code blocks and table lines: a `# ` or
`## ` heading always overwrites the title (last-wins, independent of any
previous value); a `###`–`######` heading is routed through `subHeading`,
which pushes `Content` with tag `h3`–`h6` when a title exists and otherwise
promotes the heading text to the title without touching `body`. -/
theorem c5_title_rules :
    (∀ (st : ScanState) (line : Str) (rest : List Str),
        st.in_code_block = false →
        is_table_row (pyStrip line) = false →
        is_table_separator (pyStrip line) = false →
        ((("# ").data.isPrefixOf (pyStrip line) = true →
            runScan st (line :: rest) =
              runScan { closeListIf (flushParagraph st) with
                          title := pyStrip ((pyStrip line).drop 2) } rest) ∧
          (("## ").data.isPrefixOf (pyStrip line) = true →
            runScan st (line :: rest) =
              runScan { closeListIf (flushParagraph st) with
                          title := pyStrip ((pyStrip line).drop 3) } rest) ∧
          (("### ").data.isPrefixOf (pyStrip line) = true →
            runScan st (line :: rest) =
              runScan (subHeading st (pyStrip ((pyStrip line).drop 4)) (("h3").data)) rest) ∧
          (("#### ").data.isPrefixOf (pyStrip line) = true →
            runScan st (line :: rest) =
              runScan (subHeading st (pyStrip ((pyStrip line).drop 5)) (("h4").data)) rest) ∧
          (("##### ").data.isPrefixOf (pyStrip line) = true →
            runScan st (line :: rest) =
              runScan (subHeading st (pyStrip ((pyStrip line).drop 6)) (("h5").data)) rest) ∧
          (("###### ").data.isPrefixOf (pyStrip line) = true →
            runScan st (line :: rest) =
              runScan (subHeading st (pyStrip ((pyStrip line).drop 7)) (("h6").data)) rest))) ∧
      (∀ (st : ScanState) (header_text tag : Str),
        (st.title.isEmpty = false →
          (subHeading st header_text tag).title = st.title ∧
            (subHeading st header_text tag).body =
              (closeListIf (flushParagraph st)).body ++ [BodyItem.content header_text tag]) ∧
        (st.title.isEmpty = true →
          (subHeading st header_text tag).title = header_text ∧
            (subHeading st header_text tag).body = (closeListIf (flushParagraph st)).body)) := by
  constructor
  · intro st line rest h0 h1 h2
    refine ⟨?_, ?_, ?_, ?_, ?_, ?_⟩ <;> intro hp <;>
      rcases List.isPrefixOf_iff_prefix.mp hp with ⟨t, ht⟩
    · have hls : pyStrip line = '#' :: ' ' :: t := by rw [← ht]; rfl
      rw [hls] at h1 h2
      unfold runScan
      rw [List.length_cons, scanLines.eq_def]
      simp only [hls, h0, h1, h2, List.isEmpty_cons, Bool.or_self, Bool.false_eq_true, if_false,
        List.isPrefixOf, List.drop]
      simp
    · have hls : pyStrip line = '#' :: '#' :: ' ' :: t := by rw [← ht]; rfl
      rw [hls] at h1 h2
      unfold runScan
      rw [List.length_cons, scanLines.eq_def]
      simp only [hls, h0, h1, h2, List.isEmpty_cons, Bool.or_self, Bool.false_eq_true, if_false,
        List.isPrefixOf, List.drop]
      simp
    · have hls : pyStrip line = '#' :: '#' :: '#' :: ' ' :: t := by rw [← ht]; rfl
      rw [hls] at h1 h2
      unfold runScan
      rw [List.length_cons, scanLines.eq_def]
      simp only [hls, h0, h1, h2, List.isEmpty_cons, Bool.or_self, Bool.false_eq_true, if_false,
        List.isPrefixOf, List.drop]
      simp
    · have hls : pyStrip line = '#' :: '#' :: '#' :: '#' :: ' ' :: t := by rw [← ht]; rfl
      rw [hls] at h1 h2
      unfold runScan
      rw [List.length_cons, scanLines.eq_def]
      simp only [hls, h0, h1, h2, List.isEmpty_cons, Bool.or_self, Bool.false_eq_true, if_false,
        List.isPrefixOf, List.drop]
      simp
    · have hls : pyStrip line = '#' :: '#' :: '#' :: '#' :: '#' :: ' ' :: t := by
        rw [← ht]; rfl
      rw [hls] at h1 h2
      unfold runScan
      rw [List.length_cons, scanLines.eq_def]
      simp only [hls, h0, h1, h2, List.isEmpty_cons, Bool.or_self, Bool.false_eq_true, if_false,
        List.isPrefixOf, List.drop]
      simp
    · have hls : pyStrip line = '#' :: '#' :: '#' :: '#' :: '#' :: '#' :: ' ' :: t := by
        rw [← ht]; rfl
      rw [hls] at h1 h2
      unfold runScan
      rw [List.length_cons, scanLines.eq_def]
      simp only [hls, h0, h1, h2, List.isEmpty_cons, Bool.or_self, Bool.false_eq_true, if_false,
        List.isPrefixOf, List.drop]
      simp
  · intro st header_text tag
    constructor
    · intro htitle
      unfold subHeading
      rw [if_pos (by simp [htitle])]
      simp
    · intro htitle
      unfold subHeading
      rw [if_neg (by simp [htitle])]
      simp

/-- C5 witness: at the initial state, a `## ` heading installs the heading
text as the title, and `subHeading` with an empty title promotes the heading
without touching `body`. -/
theorem c5_witness :
    runScan initState (("## T2").data :: []) =
      runScan { closeListIf (flushParagraph initState) with title := ("T2").data } [] ∧
      (subHeading initState (("A").data) (("h3").data)).title = ("A").data := by
  have h := c5_title_rules.1 initState (("## T2").data) [] (by decide) (by decide) (by decide)
  refine ⟨?_, ((c5_title_rules.2 initState (("A").data) (("h3").data)).2 (by decide)).1⟩
  have h2 := h.2.1 (by decide)
  calc runScan initState (("## T2").data :: [])
      = runScan { closeListIf (flushParagraph initState) with
                    title := pyStrip ((pyStrip (("## T2").data)).drop 3) } [] := h2
    _ = runScan { closeListIf (flushParagraph initState) with title := ("T2").data } [] := by rfl

/-- C10 (amended): a non-blank line whose stripped form starts with `![`
but does not match the image pattern — provided it is not inside an open
code fence and is not classified earlier as a table line — only flushes the
pending paragraph and open list; the line itself contributes nothing to the
resulting state. -/
theorem c10_nonmatching_image_line (st : ScanState) (line : Str) (rest : List Str)
    (h0 : st.in_code_block = false)
    (h1 : is_table_row (pyStrip line) = false)
    (h2 : is_table_separator (pyStrip line) = false)
    (hp : ("![").data.isPrefixOf (pyStrip line) = true)
    (hm : imageMatch (pyStrip line) = none) :
    runScan st (line :: rest) = runScan (closeListIf (flushParagraph st)) rest := by
  rcases List.isPrefixOf_iff_prefix.mp hp with ⟨t, ht⟩
  have hls : pyStrip line = '!' :: '[' :: t := by rw [← ht]; rfl
  rw [hls] at h1 h2 hm
  unfold runScan
  rw [List.length_cons, scanLines.eq_def]
  simp only [hls, h0, h1, h2, hm, List.isEmpty_cons, Bool.or_self, Bool.false_eq_true, if_false,
    List.isPrefixOf]
  simp [hm]

/-- C10 witness: the amended step at a concrete non-matching image line. -/
theorem c10_witness :
    runScan initState (("![busted").data :: []) =
      runScan (closeListIf (flushParagraph initState)) [] :=
  c10_nonmatching_image_line initState (("![busted").data) [] (by decide) (by decide)
    (by decide) (by decide) (by decide)

/-- C10 counterexample: the line `"![a|b]"` has a stripped form starting
with `![` and does not match the image pattern, yet it contains a pipe, so
`parse_slide_content` classifies it as a table line, fails to parse it as a
table, and folds it back into paragraph content — it does appear in `body`
and `content`, refuting the claim that such a line contributes nothing. -/
theorem c10_counterexample :
    ("![").data.isPrefixOf (pyStrip (("![a|b]").data)) = true ∧
      imageMatch (pyStrip (("![a|b]").data)) = none ∧
      (parse_slide_content (("![a|b]").data)).content = [("![a|b]").data] := by
  decide

theorem splitBy_ne_nil (p : α → Bool) (l : List α) : splitBy p l ≠ [] := by
  induction l with
  | nil => simp [splitBy]
  | cons a rest ih =>
    by_cases hp : p a = true
    · simp [splitBy, hp]
    · simp only [splitBy, hp]
      rcases hE : splitBy p rest with _ | ⟨h, t⟩ <;> simp [hE]

theorem splitBy_cons_pos {p : α → Bool} {a : α} (l : List α) (hp : p a = true) :
    splitBy p (a :: l) = [] :: splitBy p l := by
  simp [splitBy, hp]

theorem splitBy_cons_neg {p : α → Bool} {a : α} {l : List α} {h : List α} {t : List (List α)}
    (hp : p a = false) (hE : splitBy p l = h :: t) :
    splitBy p (a :: l) = (a :: h) :: t := by
  simp [splitBy, hp, hE]

theorem splitBy_append_sep {p : α → Bool} {a : α} (hp : p a = true) :
    ∀ x y : List α, splitBy p (x ++ a :: y) = splitBy p x ++ splitBy p y := by
  intro x
  induction x with
  | nil =>
    intro y
    rw [List.nil_append, splitBy_cons_pos _ hp]
    rfl
  | cons c x2 ih =>
    intro y
    by_cases hc : p c = true
    · rw [List.cons_append, splitBy_cons_pos _ hc, splitBy_cons_pos _ hc, ih y,
        List.cons_append]
    · rcases hE : splitBy p x2 with _ | ⟨h, t⟩
      · exact absurd hE (splitBy_ne_nil p x2)
      · have h1 : splitBy p (x2 ++ a :: y) = h :: (t ++ splitBy p y) := by
          rw [ih y, hE, List.cons_append]
        rw [List.cons_append,
          splitBy_cons_neg (Bool.eq_false_iff.mpr hc) h1,
          splitBy_cons_neg (Bool.eq_false_iff.mpr hc) hE, List.cons_append]

theorem splitBy_sepFree {p : α → Bool} :
    ∀ {x : List α}, (∀ c ∈ x, p c = false) → splitBy p x = [x] := by
  intro x
  induction x with
  | nil => intro _; rfl
  | cons c x2 ih =>
    intro h
    have hc : p c = false := h c (by simp)
    have h2 := ih (fun d hd => h d (by simp [hd]))
    rw [splitBy_cons_neg hc h2]

theorem pyJoin_cons_cons (sep x y : Str) (t : List Str) :
    pyJoin sep (x :: y :: t) = x ++ sep ++ pyJoin sep (y :: t) := rfl

theorem pyJoin_splitBy (a : Char) : ∀ s : Str, pyJoin [a] (splitBy (fun c => c == a) s) = s := by
  intro s
  induction s with
  | nil => rfl
  | cons c rest ih =>
    by_cases hc : (c == a) = true
    · rw [splitBy_cons_pos (p := fun x => x == a) (a := c) rest hc]
      rcases hE : splitBy (fun c => c == a) rest with _ | ⟨h, t⟩
      · exact absurd hE (splitBy_ne_nil _ _)
      · rw [hE] at ih
        have hca : c = a := by simpa using hc
        rw [pyJoin_cons_cons, ih, hca]
        rfl
    · rcases hE : splitBy (fun c => c == a) rest with _ | ⟨h, t⟩
      · exact absurd hE (splitBy_ne_nil _ _)
      · rw [splitBy_cons_neg (p := fun x => x == a) (a := c)
          (Bool.eq_false_iff.mpr hc) hE]
        rw [hE] at ih
        cases t with
        | nil =>
          show c :: h = c :: rest
          rw [show h = rest from ih]
        | cons t1 ts =>
          rw [pyJoin_cons_cons] at ih ⊢
          show c :: (h ++ [a] ++ pyJoin [a] (t1 :: ts)) = c :: rest
          rw [ih]

theorem splitBy_pyJoin (a : Char) :
    ∀ ls : List Str, ls ≠ [] → (∀ l ∈ ls, ∀ c ∈ l, (c == a) = false) →
      splitBy (fun c => c == a) (pyJoin [a] ls) = ls := by
  intro ls
  induction ls with
  | nil => intro h; exact absurd rfl h
  | cons l rest ih =>
    intro _ hfree
    cases rest with
    | nil => exact splitBy_sepFree (hfree l (by simp))
    | cons r rs =>
      rw [pyJoin_cons_cons]
      rw [show l ++ [a] ++ pyJoin [a] (r :: rs) = l ++ a :: pyJoin [a] (r :: rs) from by simp]
      rw [splitBy_append_sep (by simp) l (pyJoin [a] (r :: rs))]
      rw [splitBy_sepFree (hfree l (by simp)),
        ih (by simp) (fun l2 hl2 => hfree l2 (by simp [hl2]))]
      rfl

theorem mem_splitBy_pred {p : α → Bool} :
    ∀ {s l : List α}, l ∈ splitBy p s → ∀ c ∈ l, p c = false := by
  intro s
  induction s with
  | nil =>
    intro l hl c hc
    simp [splitBy] at hl
    subst hl
    simp at hc
  | cons x s2 ih =>
    intro l hl c hc
    by_cases hx : p x = true
    · rw [splitBy_cons_pos _ hx] at hl
      rcases List.mem_cons.mp hl with rfl | hl
      · simp at hc
      · exact ih hl c hc
    · rcases hE : splitBy p s2 with _ | ⟨h, t⟩
      · exact absurd hE (splitBy_ne_nil p s2)
      · rw [splitBy_cons_neg (Bool.eq_false_iff.mpr hx) hE] at hl
        rcases List.mem_cons.mp hl with rfl | hl
        · rcases List.mem_cons.mp hc with rfl | hc
          · exact Bool.eq_false_iff.mpr hx
          · exact ih (by rw [hE]; exact List.mem_cons_self h t) c hc
        · exact ih (by rw [hE]; exact List.mem_cons_of_mem h hl) c hc

theorem mem_splitBy_sub {p : α → Bool} :
    ∀ {s l : List α}, l ∈ splitBy p s → ∀ c ∈ l, c ∈ s := by
  intro s
  induction s with
  | nil =>
    intro l hl c hc
    simp [splitBy] at hl
    subst hl
    simp at hc
  | cons x s2 ih =>
    intro l hl c hc
    by_cases hx : p x = true
    · rw [splitBy_cons_pos _ hx] at hl
      rcases List.mem_cons.mp hl with rfl | hl
      · simp at hc
      · exact List.mem_cons_of_mem x (ih hl c hc)
    · rcases hE : splitBy p s2 with _ | ⟨h, t⟩
      · exact absurd hE (splitBy_ne_nil p s2)
      · rw [splitBy_cons_neg (Bool.eq_false_iff.mpr hx) hE] at hl
        rcases List.mem_cons.mp hl with rfl | hl
        · rcases List.mem_cons.mp hc with rfl | hc
          · exact List.mem_cons_self c s2
          · exact List.mem_cons_of_mem x
              (ih (by rw [hE]; exact List.mem_cons_self h t) c hc)
        · exact List.mem_cons_of_mem x
            (ih (by rw [hE]; exact List.mem_cons_of_mem h hl) c hc)

theorem dropWhile_idem (p : α → Bool) (l : List α) :
    (l.dropWhile p).dropWhile p = l.dropWhile p := by
  induction l with
  | nil => rfl
  | cons c t ih =>
    by_cases hc : p c = true
    · rw [List.dropWhile_cons_of_pos hc, ih]
    · rw [List.dropWhile_cons_of_neg hc, List.dropWhile_cons_of_neg hc]

theorem dropTrailing_idem (p : Char → Bool) (l : Str) :
    dropTrailing p (dropTrailing p l) = dropTrailing p l := by
  unfold dropTrailing
  rw [List.reverse_reverse, dropWhile_idem]

theorem dropTrailing_cons (p : Char → Bool) (c : Char) (t : Str) :
    dropTrailing p (c :: t) =
      if (dropTrailing p t).isEmpty then (if p c then [] else [c])
      else c :: dropTrailing p t := by
  unfold dropTrailing
  rw [show (c :: t).reverse = t.reverse ++ [c] from by simp, List.dropWhile_append]
  by_cases hE : (t.reverse.dropWhile p).isEmpty = true
  · rw [if_pos hE, if_pos (by simpa using hE)]
    by_cases hc : p c = true
    · rw [if_pos hc]
      simp [List.dropWhile_cons_of_pos hc]
    · rw [if_neg hc]
      simp [List.dropWhile_cons_of_neg hc]
  · rw [if_neg hE, if_neg (by simpa using hE)]
    simp

theorem dropWhile_dropTrailing_comm (p : Char → Bool) : ∀ l : Str,
    (dropTrailing p l).dropWhile p = dropTrailing p (l.dropWhile p) := by
  intro l
  induction l with
  | nil => rfl
  | cons c t ih =>
    rw [dropTrailing_cons]
    by_cases hdt : (dropTrailing p t).isEmpty = true
    · rw [if_pos hdt]
      by_cases hc : p c = true
      · rw [if_pos hc, List.dropWhile_cons_of_pos hc, ← ih, List.isEmpty_iff.mp hdt]
      · simp [List.dropWhile_cons_of_neg hc, dropTrailing_cons, hdt, hc]
    · rw [if_neg hdt]
      by_cases hc : p c = true
      · rw [List.dropWhile_cons_of_pos hc, List.dropWhile_cons_of_pos hc, ih]
      · rw [List.dropWhile_cons_of_neg hc, List.dropWhile_cons_of_neg hc,
          dropTrailing_cons, if_neg hdt]

theorem stripBlank_dropWhile (l : Str) :
    stripBlank (l.dropWhile isBlankChar) = stripBlank l := by
  unfold stripBlank
  rw [dropWhile_idem]

theorem stripBlank_dropTrailing (l : Str) :
    stripBlank (dropTrailing isBlankChar l) = stripBlank l := by
  unfold stripBlank
  rw [dropWhile_dropTrailing_comm, dropTrailing_idem]

theorem pyStrip_idem (s : Str) : pyStrip (pyStrip s) = pyStrip s := by
  unfold pyStrip
  rw [dropWhile_dropTrailing_comm, dropWhile_idem, dropTrailing_idem]

theorem dropWhile_congr_mem {p q : α → Bool} :
    ∀ {l : List α}, (∀ c ∈ l, p c = q c) → l.dropWhile p = l.dropWhile q := by
  intro l
  induction l with
  | nil => intro _; rfl
  | cons c t ih =>
    intro h
    have hc : p c = q c := h c (by simp)
    by_cases hp : p c = true
    · rw [List.dropWhile_cons_of_pos hp, List.dropWhile_cons_of_pos (hc ▸ hp),
        ih (fun d hd => h d (by simp [hd]))]
    · rw [List.dropWhile_cons_of_neg hp, List.dropWhile_cons_of_neg (hc ▸ hp)]

theorem pyWs_of_blank {c : Char} (h : isBlankChar c = true) : isPyWs c = true := by
  simp only [isBlankChar, Bool.or_eq_true] at h
  rcases h with h1 | h1 <;> simp [isPyWs, h1]

theorem pyWs_eq_blank_of_clean {c : Char} (h1 : (c == '\n') = false) (h2 : c ≠ '\r')
    (h3 : c ≠ '\x0b') (h4 : c ≠ '\x0c') : isPyWs c = isBlankChar c := by
  unfold isPyWs isBlankChar
  rw [h1, show (c == '\r') = false from by simpa using h2,
    show (c == '\x0b') = false from by simpa using h3,
    show (c == '\x0c') = false from by simpa using h4]
  simp

theorem dropWhile_pyJoin :
    ∀ ls : List Str, (∀ l ∈ ls, ∀ c ∈ l, isPyWs c = isBlankChar c) →
      (pyJoin ['\n'] ls).dropWhile isPyWs = pyJoin ['\n'] (trimFrontLines ls) := by
  intro ls
  induction ls with
  | nil => intro _; rfl
  | cons l rest ih =>
    intro hclean
    have hcl : ∀ c ∈ l, isPyWs c = isBlankChar c := hclean l (by simp)
    by_cases hb : lineAllBlank l = true
    · have hall : ∀ c ∈ l, isPyWs c = true := fun c hc =>
        pyWs_of_blank (List.all_eq_true.mp hb c hc)
      have htf : trimFrontLines (l :: rest) = trimFrontLines rest := by
        unfold trimFrontLines
        rw [List.dropWhile_cons_of_pos hb]
      rw [htf]
      cases rest with
      | nil =>
        show l.dropWhile isPyWs = pyJoin ['\n'] (trimFrontLines [])
        rw [show l.dropWhile isPyWs = [] from List.dropWhile_eq_nil_iff.mpr hall]
        rfl
      | cons r rs =>
        rw [pyJoin_cons_cons, List.append_assoc, List.dropWhile_append_of_pos hall]
        show ('\n' :: pyJoin ['\n'] (r :: rs)).dropWhile isPyWs = _
        rw [List.dropWhile_cons_of_pos (by decide), ih (fun x hx => hclean x (by simp [hx]))]
    · have hne : l.dropWhile isBlankChar ≠ [] := by
        intro hcon
        have hall : ∀ x ∈ l, isBlankChar x = true := List.dropWhile_eq_nil_iff.mp hcon
        exact hb (List.all_eq_true.mpr hall)
      have hdl : l.dropWhile isPyWs = l.dropWhile isBlankChar := dropWhile_congr_mem hcl
      have htf : trimFrontLines (l :: rest) = (l.dropWhile isBlankChar) :: rest := by
        unfold trimFrontLines
        rw [List.dropWhile_cons_of_neg (by simpa using hb)]
      rw [htf]
      cases rest with
      | nil =>
        show l.dropWhile isPyWs = pyJoin ['\n'] [l.dropWhile isBlankChar]
        rw [hdl]
        rfl
      | cons r rs =>
        rw [pyJoin_cons_cons, List.append_assoc, List.dropWhile_append, hdl,
          if_neg (by simpa using hne), pyJoin_cons_cons]
        simp [List.append_assoc]

theorem pyJoin_append_single (sep : Str) :
    ∀ (A : List Str) (x : Str), A ≠ [] →
      pyJoin sep (A ++ [x]) = pyJoin sep A ++ sep ++ x := by
  intro A
  induction A with
  | nil => intro x h; exact absurd rfl h
  | cons y A2 ih =>
    intro x _
    cases A2 with
    | nil => rfl
    | cons z zs =>
      simp only [List.cons_append] at ih ⊢
      rw [pyJoin_cons_cons sep y z (zs ++ [x]), ih x (by simp), pyJoin_cons_cons sep y z zs]
      simp [List.append_assoc]

theorem pyJoin_reverse (a : Char) :
    ∀ ls : List Str, (pyJoin [a] ls).reverse = pyJoin [a] ((ls.map List.reverse).reverse) := by
  intro ls
  induction ls with
  | nil => rfl
  | cons l rest ih =>
    cases rest with
    | nil => rfl
    | cons r rs =>
      rw [pyJoin_cons_cons]
      rw [show ((l :: r :: rs).map List.reverse).reverse =
        ((r :: rs).map List.reverse).reverse ++ [l.reverse] from by simp]
      rw [pyJoin_append_single [a] (((r :: rs).map List.reverse).reverse) l.reverse (by simp)]
      rw [← ih]
      simp [List.reverse_append, List.append_assoc]

theorem trimBack_via_front (ls : List Str) :
    ((trimFrontLines ((ls.map List.reverse).reverse)).map List.reverse).reverse =
      trimBackLines ls := by
  unfold trimFrontLines trimBackLines
  rw [show (ls.map List.reverse).reverse = ls.reverse.map List.reverse from by
    rw [List.map_reverse]]
  rw [List.dropWhile_map]
  have hcong : ls.reverse.dropWhile (lineAllBlank ∘ List.reverse) =
      ls.reverse.dropWhile lineAllBlank :=
    dropWhile_congr_mem (fun l _ => by simp [Function.comp, lineAllBlank])
  rw [hcong]
  rcases hE : ls.reverse.dropWhile lineAllBlank with _ | ⟨h, t⟩
  · rfl
  · show ((h.reverse.dropWhile isBlankChar :: t.map List.reverse).map List.reverse).reverse = _
    rw [show (h.reverse.dropWhile isBlankChar :: t.map List.reverse).map List.reverse =
      (h.reverse.dropWhile isBlankChar).reverse :: (t.map List.reverse).map List.reverse
      from rfl]
    have ht : (t.map List.reverse).map List.reverse = t := by
      rw [List.map_map]
      simp [Function.comp]
    rw [ht]
    rfl

theorem dropTrailing_pyJoin (ls : List Str)
    (hclean : ∀ l ∈ ls, ∀ c ∈ l, isPyWs c = isBlankChar c) :
    dropTrailing isPyWs (pyJoin ['\n'] ls) = pyJoin ['\n'] (trimBackLines ls) := by
  unfold dropTrailing
  rw [pyJoin_reverse]
  rw [dropWhile_pyJoin ((ls.map List.reverse).reverse) (by
    intro l hl c hc
    simp only [List.mem_reverse, List.mem_map] at hl
    rcases hl with ⟨l0, hl0, rfl⟩
    exact hclean l0 hl0 c (by simpa using hc))]
  rw [pyJoin_reverse]
  rw [trimBack_via_front]

theorem pyStrip_pyJoin (ls : List Str)
    (hclean : ∀ l ∈ ls, ∀ c ∈ l, isPyWs c = isBlankChar c) :
    pyStrip (pyJoin ['\n'] ls) = pyJoin ['\n'] (normChunk ls) := by
  unfold pyStrip normChunk
  rw [dropWhile_pyJoin ls hclean]
  exact dropTrailing_pyJoin (trimFrontLines ls) (by
    intro l hl c hc
    unfold trimFrontLines at hl
    rcases hE : ls.dropWhile lineAllBlank with _ | ⟨h, t⟩ <;> rw [hE] at hl
    · simp at hl
    · have hsubmem : ∀ x ∈ h :: t, x ∈ ls := fun x hx =>
        (List.dropWhile_sublist lineAllBlank).subset (hE ▸ hx)
      rcases List.mem_cons.mp hl with rfl | hl2
      · exact hclean h (hsubmem h (by simp)) c
          ((List.dropWhile_sublist isBlankChar).subset hc)
      · exact hclean l (hsubmem l (by simp [hl2])) c hc)

theorem mem_dropTrailing_sub {p : Char → Bool} {l : Str} {c : Char}
    (hc : c ∈ dropTrailing p l) : c ∈ l := by
  unfold dropTrailing at hc
  rw [List.mem_reverse] at hc
  have h2 := (List.dropWhile_sublist p).subset hc
  simpa using h2

theorem mem_trimFrontLines {ls : List Str} {l2 : Str} (h : l2 ∈ trimFrontLines ls) :
    ∃ l1 ∈ ls, stripBlank l2 = stripBlank l1 ∧ ∀ c ∈ l2, c ∈ l1 := by
  unfold trimFrontLines at h
  rcases hE : ls.dropWhile lineAllBlank with _ | ⟨h1, t⟩ <;> rw [hE] at h
  · simp at h
  · have hsub : ∀ x ∈ h1 :: t, x ∈ ls := fun x hx =>
      (List.dropWhile_sublist lineAllBlank).subset (hE ▸ hx)
    rcases List.mem_cons.mp h with rfl | h2
    · exact ⟨h1, hsub h1 (by simp), stripBlank_dropWhile h1,
        fun c hc => (List.dropWhile_sublist isBlankChar).subset hc⟩
    · exact ⟨l2, hsub l2 (by simp [h2]), rfl, fun c hc => hc⟩

theorem mem_trimBackLines {ls : List Str} {l2 : Str} (h : l2 ∈ trimBackLines ls) :
    ∃ l1 ∈ ls, stripBlank l2 = stripBlank l1 ∧ ∀ c ∈ l2, c ∈ l1 := by
  unfold trimBackLines at h
  rcases hE : ls.reverse.dropWhile lineAllBlank with _ | ⟨h1, t⟩ <;> rw [hE] at h
  · simp at h
  · rw [List.mem_reverse] at h
    have hsub : ∀ x ∈ h1 :: t, x ∈ ls := fun x hx => by
      have h3 := (List.dropWhile_sublist lineAllBlank).subset (hE ▸ hx)
      simpa using h3
    rcases List.mem_cons.mp h with rfl | h2
    · exact ⟨h1, hsub h1 (by simp), stripBlank_dropTrailing h1,
        fun c hc => mem_dropTrailing_sub hc⟩
    · exact ⟨l2, hsub l2 (by simp [h2]), rfl, fun c hc => hc⟩

theorem mem_normChunk {ls : List Str} {l2 : Str} (h : l2 ∈ normChunk ls) :
    ∃ l1 ∈ ls, stripBlank l2 = stripBlank l1 ∧ ∀ c ∈ l2, c ∈ l1 := by
  unfold normChunk at h
  rcases mem_trimBackLines h with ⟨lm, hm, hs1, hc1⟩
  rcases mem_trimFrontLines hm with ⟨l1, h1, hs2, hc2⟩
  exact ⟨l1, h1, hs1.trans hs2, fun c hc => hc2 c (hc1 c hc)⟩

theorem slide_facts (doc sep : Str)
    (hdoc : ∀ c ∈ doc, c ≠ '\r' ∧ c ≠ '\x0b' ∧ c ≠ '\x0c') :
    ∀ s ∈ parse_markdown_slides doc sep,
      s ≠ [] ∧ pyStrip s = s ∧
        ∀ l ∈ splitBy (fun c => c == '\n') s, isSeparatorLine sep l = false := by
  intro s hs
  unfold parse_markdown_slides at hs
  simp only [List.mem_filter, List.mem_map] at hs
  rcases hs with ⟨⟨chunk, hchunk, rfl⟩, hne⟩
  have hnotempty : pyStrip (pyJoin ['\n'] chunk) ≠ [] := by simpa using hne
  have hlines : ∀ l ∈ chunk, l ∈ splitBy (fun c => c == '\n') doc := fun l hl =>
    mem_splitBy_sub hchunk l hl
  have hnosep : ∀ l ∈ chunk, isSeparatorLine sep l = false := fun l hl =>
    mem_splitBy_pred hchunk l hl
  have hclean : ∀ l ∈ chunk, ∀ c ∈ l, isPyWs c = isBlankChar c := by
    intro l hl c hc
    have hcn : (c == '\n') = false := mem_splitBy_pred (hlines l hl) c hc
    have hcd : c ∈ doc := mem_splitBy_sub (hlines l hl) c hc
    rcases hdoc c hcd with ⟨h1, h2, h3⟩
    exact pyWs_eq_blank_of_clean hcn h1 h2 h3
  have hform : pyStrip (pyJoin ['\n'] chunk) = pyJoin ['\n'] (normChunk chunk) :=
    pyStrip_pyJoin chunk hclean
  have hnc_ne : normChunk chunk ≠ [] := by
    intro hcon
    rw [hform, hcon] at hnotempty
    exact hnotempty rfl
  have hncfree : ∀ l ∈ normChunk chunk, ∀ c ∈ l, (c == '\n') = false := by
    intro l hl c hc
    rcases mem_normChunk hl with ⟨l1, hl1, _, hsubc⟩
    exact mem_splitBy_pred (hlines l1 hl1) c (hsubc c hc)
  have hncnosep : ∀ l ∈ normChunk chunk, isSeparatorLine sep l = false := by
    intro l hl
    rcases mem_normChunk hl with ⟨l1, hl1, hsb, _⟩
    unfold isSeparatorLine at *
    rw [hsb]
    exact hnosep l1 hl1
  refine ⟨hnotempty, pyStrip_idem _, ?_⟩
  intro l hl
  rw [hform, splitBy_pyJoin '\n' (normChunk chunk) hnc_ne hncfree] at hl
  exact hncnosep l hl

theorem parse_rejoin (sep : Str) (hsep : stripBlank sep = sep) (hnl : '\n' ∉ sep) :
    ∀ slides : List Str,
      (∀ s ∈ slides, s ≠ [] ∧ pyStrip s = s ∧
        ∀ l ∈ splitBy (fun c => c == '\n') s, isSeparatorLine sep l = false) →
      parse_markdown_slides (rejoinWithSeparator sep slides) sep = slides := by
  have hsepline : isSeparatorLine sep sep = true := by
    unfold isSeparatorLine
    rw [hsep]
    simp
  have hsepfree : ∀ c ∈ sep, (c == '\n') = false := by
    intro c hc
    simp only [beq_eq_false_iff_ne, ne_eq]
    intro hcon
    exact hnl (hcon ▸ hc)
  intro slides
  induction slides with
  | nil =>
    intro _
    show parse_markdown_slides (pyJoin ('\n' :: (sep ++ ['\n'])) []) sep = []
    by_cases hp : isSeparatorLine sep [] = true
    · simp [parse_markdown_slides, splitBy, hp, pyJoin, pyStrip, dropTrailing]
    · simp [parse_markdown_slides, splitBy, hp, pyJoin, pyStrip, dropTrailing]
  | cons s rest ih =>
    intro hfacts
    rcases hfacts s (by simp) with ⟨hs_ne, hs_strip, hs_nosep⟩
    cases rest with
    | nil =>
      unfold parse_markdown_slides
      dsimp only
      rw [show rejoinWithSeparator sep [s] = s from rfl]
      rw [splitBy_sepFree hs_nosep, List.map_cons, List.map_nil, pyJoin_splitBy, hs_strip]
      simp [List.filter, hs_ne]
      rw [show (!List.isEmpty s) = true from by simpa using hs_ne]
    | cons s2 rest2 =>
      have hstep : rejoinWithSeparator sep (s :: s2 :: rest2) =
          s ++ '\n' :: (sep ++ '\n' :: rejoinWithSeparator sep (s2 :: rest2)) := by
        unfold rejoinWithSeparator
        rw [pyJoin_cons_cons]
        simp [List.append_assoc]
      unfold parse_markdown_slides
      dsimp only
      rw [hstep]
      rw [splitBy_append_sep (p := fun c => c == '\n') (a := '\n') (by decide) s
        (sep ++ '\n' :: rejoinWithSeparator sep (s2 :: rest2))]
      rw [splitBy_append_sep (p := fun c => c == '\n') (a := '\n') (by decide) sep
        (rejoinWithSeparator sep (s2 :: rest2))]
      rw [splitBy_sepFree hsepfree]
      rw [show ([sep] : List Str) ++
        splitBy (fun c => c == '\n') (rejoinWithSeparator sep (s2 :: rest2)) =
        sep :: splitBy (fun c => c == '\n') (rejoinWithSeparator sep (s2 :: rest2)) from rfl]
      rw [splitBy_append_sep (p := isSeparatorLine sep) (a := sep) hsepline
        (splitBy (fun c => c == '\n') s)
        (splitBy (fun c => c == '\n') (rejoinWithSeparator sep (s2 :: rest2)))]
      rw [splitBy_sepFree hs_nosep]
      simp only [List.map_append, List.filter_append]
      have hihev := ih (fun x hx => hfacts x (by simp [hx]))
      unfold parse_markdown_slides at hihev
      rw [hihev, List.map_cons, List.map_nil, pyJoin_splitBy, hs_strip]
      simp [List.filter, hs_ne]
      rw [show (!List.isEmpty s) = true from by simpa using hs_ne]
      rfl

/-- C3 (amended): splitting is idempotent — re-splitting the re-joined slide
texts returns the original slide list, for any separator that is its own
`[ \t]`-strip and contains no newline, and any document free of the unusual
whitespace characters `\r`, `\x0b`, `\x0c`.  The re-joined text itself does
not in general reproduce `D` (even up to surrounding whitespace), since empty
slides are dropped and each slide is stripped. -/
theorem c3_split_idempotent (doc separator : Str)
    (hsep : stripBlank separator = separator)
    (hnl : '\n' ∉ separator)
    (hdoc : ∀ c ∈ doc, c ≠ '\r' ∧ c ≠ '\x0b' ∧ c ≠ '\x0c') :
    parse_markdown_slides
        (rejoinWithSeparator separator (parse_markdown_slides doc separator)) separator =
      parse_markdown_slides doc separator :=
  parse_rejoin separator hsep hnl (parse_markdown_slides doc separator)
    (slide_facts doc separator hdoc)

/-- C3 witness: the idempotence at a concrete document and the default
separator. -/
theorem c3_witness :
    parse_markdown_slides (rejoinWithSeparator (("---").data)
        (parse_markdown_slides (("a\nx\n---\n\n---\nb\n").data) (("---").data)))
        (("---").data) =
      parse_markdown_slides (("a\nx\n---\n\n---\nb\n").data) (("---").data) :=
  c3_split_idempotent (("a\nx\n---\n\n---\nb\n").data) (("---").data)
    (by decide) (by decide) (by decide)

/-- C3 counterexample: on `"a\n---\n---\nb"` the empty slide between the two
separators is dropped, so re-joining the slide texts with the separator on
its own line does not reproduce the document, not even up to surrounding
whitespace normalization. -/
theorem c3_counterexample :
    rejoinWithSeparator (("---").data)
        (parse_markdown_slides (("a\n---\n---\nb").data) (("---").data)) ≠
      ("a\n---\n---\nb").data ∧
    pyStrip (rejoinWithSeparator (("---").data)
        (parse_markdown_slides (("a\n---\n---\nb").data) (("---").data))) ≠
      pyStrip (("a\n---\n---\nb").data) := by decide

end Presenter
